import Mathlib

/-!
# A shallow embedding of `src/pubsub.ts` (class `PubSub`)

The registry state `Reg` models the private field
`#subs = new Map<string, Set<Subscriber>>()`: an insertion-ordered
association list from topic strings to insertion-ordered duplicate-free
lists of subscriber values.

Subscriber values (`JSVal`) are either function references (`func i`,
identified by a numeral, compared by reference identity) or defined
non-function values (`num n`, compared by value) — the source never
validates the callback argument, so arbitrary values can end up in a set.

Callback behaviour is given by an environment `Env : Nat → CbAct`
assigning each function reference a behaviour drawn from a small action
language: return normally, throw, call `unsubscribe`, or act as the
wrapper produced by `subscribeOnce` (invoke a user callback, then always
unsubscribe itself, rethrowing any user error afterwards).

`publish` mirrors the source line by line: a live `Set.prototype.forEach`
over the topic's set (elements removed before being visited are skipped;
the captured `Set` object keeps its content when the map entry is deleted
mid-iteration, tracked by the `att` flag), a second `forEach` over the
`"*"` set with an `{event, data}` envelope when the topic is not `"*"`,
each callback invocation wrapped in try/catch routing to the error
handler with `(topic, isWildcard)`, and finally `return this.#subs.has(topic)`.
The iteration is fueled; callbacks in the modelled action language never
re-add a deleted element, so the fueled loop agrees with `forEach`
whenever the fuel covers the pending elements.
-/

/-- A JavaScript value that can be passed as a subscriber: a function
reference (identified by a numeral) or a defined non-function value. -/
inductive JSVal where
  | func (i : Nat)
  | num (n : Nat)
deriving DecidableEq

/-- The registry state: the `#subs` map, an insertion-ordered association
list from topic to the insertion-ordered content of its subscriber set. -/
abbrev Reg : Type := List (String × List JSVal)

/-- `#subs.get(topic)`: the first binding for the key, if any. -/
def lookupTopic : Reg → String → Option (List JSVal)
  | [], _ => none
  | (k, v) :: rest, t => if k = t then some v else lookupTopic rest t

/-- `#subs.set(topic, l)` when the key exists replaces the value in place;
otherwise appends the binding (JS `Map` insertion order). -/
def setTopic : Reg → String → List JSVal → Reg
  | [], t, l => [(t, l)]
  | (k, v) :: rest, t, l =>
    if k = t then (t, l) :: rest else (k, v) :: setTopic rest t l

/-- `#subs.delete(topic)`: removes the binding for the key, if any. -/
def deleteTopic : Reg → String → Reg
  | [], _ => []
  | (k, v) :: rest, t => if k = t then rest else (k, v) :: deleteTopic rest t

/-- `Set.prototype.add`: appends the value unless already present
(SameValueZero membership; no reordering on re-add). -/
def addSub (l : List JSVal) (v : JSVal) : List JSVal :=
  if v ∈ l then l else l ++ [v]

/-- `Set.prototype.delete`: removes the value if present. -/
def eraseSub : List JSVal → JSVal → List JSVal
  | [], _ => []
  | x :: xs, v => if x = v then xs else x :: eraseSub xs v

/-- `PubSub.subscribe(topic, cb)`: lazily creates the topic's set, adds the
callback, performing no validation of either argument. -/
def subscribe (s : Reg) (t : String) (v : JSVal) : Reg :=
  match lookupTopic s t with
  | none => setTopic s t [v]
  | some l => setTopic s t (addSub l v)

/-- The optional second argument of `unsubscribe`: absent (`undefined`),
or a value whose `typeof` test picks the branch. -/
abbrev UnsubArg : Type := Option JSVal

/-- `PubSub.unsubscribe(topic, cb?)`. Note the branch is on
`typeof cb === "function"`: a defined non-function argument takes the
`else` branch and deletes the whole topic entry, returning `true`. -/
def unsubscribe (s : Reg) (t : String) (arg : UnsubArg) : Reg × Bool :=
  match lookupTopic s t with
  | none => (s, false)
  | some l =>
    match arg with
    | some (JSVal.func i) =>
      if eraseSub l (JSVal.func i) = []
      then (deleteTopic s t, decide (JSVal.func i ∈ l))
      else (setTopic s t (eraseSub l (JSVal.func i)), decide (JSVal.func i ∈ l))
    | _ => (deleteTopic s t, true)

/-- `PubSub.unsubscribeAll(topic?)`. JS truthiness: `if (topic)` is false
both for `undefined` and for the empty string, so `unsubscribeAll("")`
clears the whole map and returns `true`. -/
def unsubscribeAll (s : Reg) (topic : Option String) : Reg × Bool :=
  match topic with
  | some t =>
    if t = "" then ([], true)
    else if (lookupTopic s t).isSome then (deleteTopic s t, true) else (s, false)
  | none => ([], true)

/-- `PubSub.isSubscribed(topic, cb, considerWildcard)` (the source defaults
`considerWildcard` to `true`; here it is always passed explicitly). -/
def isSubscribed (s : Reg) (t : String) (v : JSVal) (considerWildcard : Bool) : Bool :=
  let has : Bool :=
    match lookupTopic s t with
    | some l => decide (v ∈ l)
    | none => false
  if considerWildcard then
    has || (match lookupTopic s "*" with
            | some l => decide (v ∈ l)
            | none => false)
  else has

/-- `PubSub.subscribeOnce(topic, cb)` registers a fresh wrapper function
(reference `w`) via `subscribe`; the wrapper's behaviour is given by the
environment as `CbAct.once t u ua` (see below). -/
def subscribeOnce (s : Reg) (t : String) (w : Nat) : Reg :=
  subscribe s t (JSVal.func w)

/-! ## Callback behaviour and the dispatch loop -/

/-- The value a callback is invoked with: the raw payload for direct
deliveries, or the `{event: topic, data}` envelope built in the wildcard
branch of `publish`. Payloads are opaque and modelled as numerals. -/
inductive Arg where
  | raw (d : Nat)
  | wrapped (event : String) (d : Nat)
deriving DecidableEq

/-- Base behaviour of a callback body: return normally, throw, or call
`unsubscribe(t, arg)` on the same registry. -/
inductive BAct where
  | pure
  | throwErr
  | unsubArg (t : String) (arg : UnsubArg)
deriving DecidableEq

/-- Behaviour of a function reference: a plain body, or the wrapper built
by `subscribeOnce(t, cb)` — it invokes the user callback `u` (whose body
is `ua`), then in a `finally` block unsubscribes itself from `t`; a user
exception escapes the wrapper after the cleanup. -/
inductive CbAct where
  | base (a : BAct)
  | once (t : String) (u : Nat) (ua : BAct)
deriving DecidableEq

/-- Assignment of behaviours to function references. -/
def Env : Type := Nat → CbAct

/-- State of one `forEach` pass inside `publish`.

`cur` is the content of the `Set` object captured by `#subs.get(dt)`;
`att` records whether the registry's entry for `dt` is still that very
object (deleting the map entry mid-iteration detaches the set without
clearing it, so `forEach` keeps visiting its remaining elements);
`visited` lists the elements already visited; `calls` logs every function
invocation `(callee, argument)`; `errors` logs every invocation of the
error handler as `(topic, isWildcard)`. -/
structure DS where
  reg : Reg
  cur : List JSVal
  att : Bool
  visited : List JSVal
  calls : List (JSVal × Arg)
  errors : List (String × Bool)
deriving DecidableEq

/-- Effect on the dispatch state of a callback calling
`unsubscribe(uT, uarg)` while the pass iterates the set captured for
topic `dt`: the registry is updated, and the captured set's content is
kept in lockstep (removing a member, or detaching when the map entry for
`dt` is deleted). -/
def applyUnsubD (dt : String) (uT : String) (uarg : UnsubArg) (ds : DS) : DS :=
  let reg2 := (unsubscribe ds.reg uT uarg).1
  if ds.att ∧ uT = dt then
    match uarg with
    | some (JSVal.func i) =>
      let cur2 := eraseSub ds.cur (JSVal.func i)
      { ds with reg := reg2, cur := cur2, att := !cur2.isEmpty }
    | _ => { ds with reg := reg2, att := false }
  else { ds with reg := reg2 }

/-- One `forEach` callback invocation from the try/catch body of
`publish`: `pt` is the published topic (the error-handler context), `dt`
the topic whose set this pass iterates, `w` the `isWildcard` flag, `a`
the argument passed to each subscriber. Invoking a non-function element
throws a `TypeError` inside the `try`, which reaches the error handler
without any call happening. -/
def execCb (env : Env) (pt dt : String) (w : Bool) (a : Arg) (c : JSVal) (ds : DS) : DS :=
  match c with
  | JSVal.num _ => { ds with errors := ds.errors ++ [(pt, w)] }
  | JSVal.func i =>
    let ds1 := { ds with calls := ds.calls ++ [(c, a)] }
    match env i with
    | CbAct.base BAct.pure => ds1
    | CbAct.base BAct.throwErr => { ds1 with errors := ds1.errors ++ [(pt, w)] }
    | CbAct.base (BAct.unsubArg uT uarg) => applyUnsubD dt uT uarg ds1
    | CbAct.once oT u ua =>
      let ds2 := { ds1 with calls := ds1.calls ++ [(JSVal.func u, a)] }
      let step : DS × Bool :=
        match ua with
        | BAct.pure => (ds2, false)
        | BAct.throwErr => (ds2, true)
        | BAct.unsubArg uT uarg => (applyUnsubD dt uT uarg ds2, false)
      let ds3 := applyUnsubD dt oT (some (JSVal.func i)) step.1
      if step.2 then { ds3 with errors := ds3.errors ++ [(pt, w)] } else ds3

/-- The elements of the captured set not yet visited, in insertion order:
`Set.prototype.forEach` visits the first of these next. -/
def pendingOf (ds : DS) : List JSVal :=
  ds.cur.filter (fun c => !decide (c ∈ ds.visited))

/-- The live `forEach` loop: repeatedly visit the first not-yet-visited
element of the captured set (so elements deleted before their turn are
skipped). Fueled; within the modelled action language no element is ever
re-added, so any fuel of at least the number of pending elements computes
the full pass. -/
def runForEach (env : Env) (pt dt : String) (w : Bool) (a : Arg) : Nat → DS → DS
  | 0, ds => ds
  | fuel + 1, ds =>
    match pendingOf ds with
    | [] => ds
    | c :: _ =>
      runForEach env pt dt w a fuel
        (execCb env pt dt w a c { ds with visited := ds.visited ++ [c] })

/-- The observable outcome of `publish`. -/
structure PubResult where
  reg : Reg
  ret : Bool
  calls : List (JSVal × Arg)
  errors : List (String × Bool)
deriving DecidableEq

/-- Initial pass state for iterating the set `#subs.get(dt)` of registry
`s` (an absent entry gives an empty, detached pass: the optional chain
skips the `forEach`). -/
def initDS (s : Reg) (dt : String) (calls : List (JSVal × Arg))
    (errors : List (String × Bool)) : DS :=
  match lookupTopic s dt with
  | some l => ⟨s, l, true, [], calls, errors⟩
  | none => ⟨s, [], false, [], calls, errors⟩

/-- `PubSub.publish(topic, data)`: deliver the raw payload to the topic's
own set; then, unless the topic is `"*"`, deliver the envelope
`{event: topic, data}` to the `"*"` set (looked up after the first pass);
finally return `this.#subs.has(topic)` on the post-dispatch registry. -/
def publish (env : Env) (fuel : Nat) (s : Reg) (t : String) (d : Nat) : PubResult :=
  let ds1 := runForEach env t t false (Arg.raw d) fuel (initDS s t [] [])
  let ds2 :=
    if t = "*" then ds1
    else runForEach env t "*" true (Arg.wrapped t d) fuel
          (initDS ds1.reg "*" ds1.calls ds1.errors)
  ⟨ds2.reg, (lookupTopic ds2.reg t).isSome, ds2.calls, ds2.errors⟩

/-! ## Derived notions -/

/-- The content of a topic's subscriber set (empty when the topic is
absent): what the optional chain `#subs.get(topic)?.forEach` iterates. -/
def subsOf (s : Reg) (t : String) : List JSVal :=
  (lookupTopic s t).getD []

/-- Well-formedness of a registry reachable through the API: topic keys
are distinct (a JS `Map`), every set is duplicate-free (a JS `Set`), and
— the cleanup invariant — no set is empty. -/
def wfReg (s : Reg) : Prop :=
  (s.map Prod.fst).Nodup ∧ ∀ p ∈ s, p.2 ≠ ([] : List JSVal) ∧ p.2.Nodup

/-- The cleanup invariant on its own: a topic key is present only while
its subscriber set is non-empty. -/
def noEmptyTopics (s : Reg) : Prop :=
  ∀ p ∈ s, p.2 ≠ ([] : List JSVal)

instance (s : Reg) : Decidable (wfReg s) := by unfold wfReg; infer_instance

instance (s : Reg) : Decidable (noEmptyTopics s) := by
  unfold noEmptyTopics; infer_instance

/-! ## Basic registry lemmas -/

theorem lookupTopic_setTopic_self (s : Reg) (t : String) (l : List JSVal) :
    lookupTopic (setTopic s t l) t = some l := by
  induction s with
  | nil => simp [setTopic, lookupTopic]
  | cons p rest ih =>
    obtain ⟨k, v⟩ := p
    by_cases h : k = t
    · simp [setTopic, lookupTopic, h]
    · simp [setTopic, lookupTopic, h, ih]

theorem lookupTopic_setTopic_ne (s : Reg) (t t2 : String) (l : List JSVal)
    (h : t2 ≠ t) : lookupTopic (setTopic s t l) t2 = lookupTopic s t2 := by
  have h2 : t ≠ t2 := Ne.symm h
  induction s with
  | nil => simp [setTopic, lookupTopic, h2]
  | cons p rest ih =>
    obtain ⟨k, v⟩ := p
    by_cases hk : k = t
    · subst hk
      simp [setTopic, lookupTopic, h2]
    · by_cases hk2 : k = t2
      · simp [setTopic, lookupTopic, hk, hk2, h]
      · simp [setTopic, lookupTopic, hk, hk2, ih]

theorem lookupTopic_none_of_not_mem_keys (s : Reg) (t : String)
    (h : t ∉ s.map Prod.fst) : lookupTopic s t = none := by
  induction s with
  | nil => simp [lookupTopic]
  | cons p rest ih =>
    obtain ⟨k, v⟩ := p
    simp only [List.map_cons, List.mem_cons, not_or] at h
    have hk : k ≠ t := fun hh => h.1 hh.symm
    simp [lookupTopic, hk, ih h.2]

theorem keys_deleteTopic_not_mem (s : Reg) (t : String)
    (h : (s.map Prod.fst).Nodup) : t ∉ (deleteTopic s t).map Prod.fst := by
  induction s with
  | nil => simp [deleteTopic]
  | cons p rest ih =>
    obtain ⟨k, v⟩ := p
    simp only [List.map_cons, List.nodup_cons] at h
    by_cases hk : k = t
    · subst hk
      simpa [deleteTopic] using h.1
    · simp only [deleteTopic, if_neg hk, List.map_cons, List.mem_cons, not_or]
      exact ⟨fun hh => hk hh.symm, ih h.2⟩

theorem lookupTopic_deleteTopic_self (s : Reg) (t : String)
    (h : (s.map Prod.fst).Nodup) : lookupTopic (deleteTopic s t) t = none :=
  lookupTopic_none_of_not_mem_keys _ _ (keys_deleteTopic_not_mem s t h)

theorem lookupTopic_deleteTopic_ne (s : Reg) (t t2 : String) (h : t2 ≠ t) :
    lookupTopic (deleteTopic s t) t2 = lookupTopic s t2 := by
  induction s with
  | nil => simp [deleteTopic]
  | cons p rest ih =>
    obtain ⟨k, v⟩ := p
    by_cases hk : k = t
    · subst hk
      have h2 : k ≠ t2 := Ne.symm h
      simp [deleteTopic, lookupTopic, h2]
    · by_cases hk2 : k = t2
      · simp [deleteTopic, lookupTopic, hk, hk2, h]
      · simp [deleteTopic, lookupTopic, hk, hk2, ih]

theorem setTopic_lookup_self (s : Reg) (t : String) (l : List JSVal)
    (h : lookupTopic s t = some l) : setTopic s t l = s := by
  induction s with
  | nil => simp [lookupTopic] at h
  | cons p rest ih =>
    obtain ⟨k, v⟩ := p
    by_cases hk : k = t
    · subst hk
      simp only [lookupTopic, eq_self_iff_true, if_true, Option.some.injEq] at h
      simp [setTopic, h]
    · simp only [lookupTopic, if_neg hk] at h
      simp [setTopic, hk, ih h]

theorem deleteTopic_setTopic_absent (s : Reg) (t : String) (l : List JSVal)
    (h : lookupTopic s t = none) : deleteTopic (setTopic s t l) t = s := by
  induction s with
  | nil => simp [setTopic, deleteTopic]
  | cons p rest ih =>
    obtain ⟨k, v⟩ := p
    by_cases hk : k = t
    · subst hk; simp [lookupTopic] at h
    · simp only [lookupTopic, if_neg hk] at h
      simp [setTopic, deleteTopic, hk, ih h]

theorem lookupTopic_mem (s : Reg) (t : String) (l : List JSVal)
    (h : lookupTopic s t = some l) : (t, l) ∈ s := by
  induction s with
  | nil => simp [lookupTopic] at h
  | cons p rest ih =>
    obtain ⟨k, v⟩ := p
    by_cases hk : k = t
    · subst hk
      simp only [lookupTopic, eq_self_iff_true, if_true, Option.some.injEq] at h
      subst h
      exact List.mem_cons_self _ _
    · simp only [lookupTopic, if_neg hk] at h
      exact List.mem_cons_of_mem _ (ih h)

theorem eraseSub_sublist (l : List JSVal) (v : JSVal) : (eraseSub l v).Sublist l := by
  induction l with
  | nil => simp [eraseSub]
  | cons x xs ih =>
    by_cases h : x = v
    · simp only [eraseSub, if_pos h]
      exact List.sublist_cons_self _ _
    · simp only [eraseSub, if_neg h]
      exact List.Sublist.cons₂ _ ih

theorem eraseSub_not_mem (l : List JSVal) (v : JSVal) (h : v ∉ l) :
    eraseSub l v = l := by
  induction l with
  | nil => simp [eraseSub]
  | cons x xs ih =>
    simp only [List.mem_cons, not_or] at h
    have hx : x ≠ v := fun hh => h.1 hh.symm
    simp [eraseSub, hx, ih h.2]

theorem eraseSub_append_last (l : List JSVal) (v : JSVal) (h : v ∉ l) :
    eraseSub (l ++ [v]) v = l := by
  induction l with
  | nil => simp [eraseSub]
  | cons x xs ih =>
    simp only [List.mem_cons, not_or] at h
    have hx : x ≠ v := fun hh => h.1 hh.symm
    simp [eraseSub, hx, ih h.2]

theorem not_mem_eraseSub_self (l : List JSVal) (v : JSVal) (h : l.Nodup) :
    v ∉ eraseSub l v := by
  induction l with
  | nil => simp [eraseSub]
  | cons x xs ih =>
    simp only [List.nodup_cons] at h
    by_cases hx : x = v
    · subst hx
      simpa [eraseSub] using h.1
    · simp only [eraseSub, if_neg hx, List.mem_cons, not_or]
      exact ⟨fun hh => hx hh.symm, ih h.2⟩

theorem mem_addSub_self (l : List JSVal) (v : JSVal) : v ∈ addSub l v := by
  by_cases h : v ∈ l <;> simp [addSub, h]

theorem addSub_not_mem (l : List JSVal) (v : JSVal) (h : v ∉ l) :
    addSub l v = l ++ [v] := by simp [addSub, h]

theorem addSub_ne_nil (l : List JSVal) (v : JSVal) : addSub l v ≠ [] := by
  by_cases h : v ∈ l
  · simp only [addSub, if_pos h]
    intro hl; subst hl; simp at h
  · simp [addSub, h]

theorem addSub_nodup (l : List JSVal) (v : JSVal) (h : l.Nodup) :
    (addSub l v).Nodup := by
  by_cases hv : v ∈ l
  · simpa [addSub, hv] using h
  · simp only [addSub, if_neg hv]
    simpa [List.nodup_append] using ⟨h, fun hh => hv hh⟩

theorem mem_keys_setTopic (s : Reg) (t t2 : String) (l : List JSVal)
    (h : t2 ∈ (setTopic s t l).map Prod.fst) :
    t2 ∈ s.map Prod.fst ∨ t2 = t := by
  induction s with
  | nil => simpa [setTopic] using h
  | cons p rest ih =>
    obtain ⟨k, v⟩ := p
    by_cases hk : k = t
    · subst hk
      simp only [setTopic, eq_self_iff_true, if_true, List.map_cons,
        List.mem_cons] at h ⊢
      tauto
    · simp only [setTopic, if_neg hk, List.map_cons, List.mem_cons] at h ⊢
      rcases h with h | h
      · exact Or.inl (Or.inl h)
      · rcases ih h with h2 | h2
        · exact Or.inl (Or.inr h2)
        · exact Or.inr h2

theorem wf_setTopic (s : Reg) (t : String) (l : List JSVal) (hwf : wfReg s)
    (hl : l ≠ []) (hnd : l.Nodup) : wfReg (setTopic s t l) := by
  induction s with
  | nil => exact ⟨by simp [setTopic], by simp [setTopic]; exact ⟨hl, hnd⟩⟩
  | cons p rest ih =>
    obtain ⟨k, v⟩ := p
    obtain ⟨hkeys, hent⟩ := hwf
    simp only [List.map_cons, List.nodup_cons] at hkeys
    have hwfrest : wfReg rest := ⟨hkeys.2, fun p hp => hent p (List.mem_cons_of_mem _ hp)⟩
    by_cases hk : k = t
    · subst hk
      refine ⟨?_, ?_⟩
      · simpa [setTopic] using hkeys
      · intro p hp
        simp only [setTopic, eq_self_iff_true, if_true, List.mem_cons] at hp
        rcases hp with hp | hp
        · subst hp; exact ⟨hl, hnd⟩
        · exact hent p (List.mem_cons_of_mem _ hp)
    · obtain ⟨ih1, ih2⟩ := ih hwfrest
      refine ⟨?_, ?_⟩
      · simp only [setTopic, if_neg hk, List.map_cons, List.nodup_cons]
        refine ⟨fun hmem => ?_, ih1⟩
        rcases mem_keys_setTopic rest t k l hmem with h2 | h2
        · exact hkeys.1 h2
        · exact hk h2
      · intro p hp
        simp only [setTopic, if_neg hk, List.mem_cons] at hp
        rcases hp with hp | hp
        · subst hp; exact hent (k, v) (List.mem_cons_self _ _)
        · exact ih2 p hp

theorem deleteTopic_sublist (s : Reg) (t : String) : (deleteTopic s t).Sublist s := by
  induction s with
  | nil => simp [deleteTopic]
  | cons p rest ih =>
    obtain ⟨k, v⟩ := p
    by_cases hk : k = t
    · simp only [deleteTopic, if_pos hk]
      exact List.sublist_cons_self _ _
    · simp only [deleteTopic, if_neg hk]
      exact List.Sublist.cons₂ _ ih

theorem wf_deleteTopic (s : Reg) (t : String) (hwf : wfReg s) :
    wfReg (deleteTopic s t) := by
  refine ⟨?_, ?_⟩
  · exact List.Nodup.sublist (List.Sublist.map _ (deleteTopic_sublist s t)) hwf.1
  · intro p hp
    exact hwf.2 p ((deleteTopic_sublist s t).subset hp)

theorem wf_lookup (s : Reg) (t : String) (l : List JSVal) (hwf : wfReg s)
    (h : lookupTopic s t = some l) : l ≠ [] ∧ l.Nodup :=
  hwf.2 (t, l) (lookupTopic_mem s t l h)

theorem wf_subscribe (s : Reg) (t : String) (v : JSVal) (hwf : wfReg s) :
    wfReg (subscribe s t v) := by
  unfold subscribe
  cases h : lookupTopic s t with
  | none => exact wf_setTopic s t [v] hwf (by simp) (by simp)
  | some l =>
    obtain ⟨hl, hnd⟩ := wf_lookup s t l hwf h
    exact wf_setTopic s t _ hwf (addSub_ne_nil l v) (addSub_nodup l v hnd)

theorem wf_unsubscribe (s : Reg) (t : String) (arg : UnsubArg) (hwf : wfReg s) :
    wfReg (unsubscribe s t arg).1 := by
  unfold unsubscribe
  cases h : lookupTopic s t with
  | none => exact hwf
  | some l =>
    obtain ⟨hl, hnd⟩ := wf_lookup s t l hwf h
    match arg with
    | none => exact wf_deleteTopic s t hwf
    | some (JSVal.num n) => exact wf_deleteTopic s t hwf
    | some (JSVal.func i) =>
      by_cases h2 : eraseSub l (JSVal.func i) = []
      · simpa [h2] using wf_deleteTopic s t hwf
      · simp only [if_neg h2]
        exact wf_setTopic s t _ hwf h2 (List.Nodup.sublist (eraseSub_sublist l _) hnd)

theorem wf_unsubscribeAll (s : Reg) (topic : Option String) (hwf : wfReg s) :
    wfReg (unsubscribeAll s topic).1 := by
  unfold unsubscribeAll
  match topic with
  | none => exact ⟨by simp, by simp⟩
  | some t =>
    by_cases h : t = ""
    · simp only [if_pos h]
      exact ⟨by simp, by simp⟩
    · by_cases h2 : (lookupTopic s t).isSome
      · simpa [h, h2] using wf_deleteTopic s t hwf
      · simpa [h, h2] using hwf

/-! ## Characterisations of the operations -/

theorem lookupTopic_subscribe_self (s : Reg) (t : String) (v : JSVal) :
    lookupTopic (subscribe s t v) t = some (addSub (subsOf s t) v) := by
  unfold subscribe subsOf
  cases h : lookupTopic s t with
  | none =>
    have : addSub ([] : List JSVal) v = [v] := by simp [addSub]
    simp [lookupTopic_setTopic_self, this]
  | some l => simp [lookupTopic_setTopic_self]

theorem lookupTopic_subscribe_ne (s : Reg) (t t2 : String) (v : JSVal)
    (h : t2 ≠ t) : lookupTopic (subscribe s t v) t2 = lookupTopic s t2 := by
  unfold subscribe
  cases hl : lookupTopic s t with
  | none => exact lookupTopic_setTopic_ne s t t2 _ h
  | some l => exact lookupTopic_setTopic_ne s t t2 _ h

theorem subsOf_subscribe_self (s : Reg) (t : String) (v : JSVal)
    (h : v ∉ subsOf s t) : subsOf (subscribe s t v) t = subsOf s t ++ [v] := by
  unfold subsOf
  rw [lookupTopic_subscribe_self, Option.getD_some, addSub_not_mem _ _ h]
  rfl

theorem subsOf_subscribe_ne (s : Reg) (t t2 : String) (v : JSVal)
    (h : t2 ≠ t) : subsOf (subscribe s t v) t2 = subsOf s t2 := by
  unfold subsOf
  rw [lookupTopic_subscribe_ne s t t2 v h]

theorem unsubscribe_noop (s : Reg) (t : String) (i : Nat) (hwf : wfReg s)
    (h : JSVal.func i ∉ subsOf s t) :
    unsubscribe s t (some (JSVal.func i)) = (s, false) := by
  unfold unsubscribe
  cases hl : lookupTopic s t with
  | none => simp
  | some l =>
    have hmem : JSVal.func i ∉ l := by
      unfold subsOf at h
      simpa [hl] using h
    obtain ⟨hl1, _⟩ := wf_lookup s t l hwf hl
    simp only [eraseSub_not_mem l _ hmem, if_neg hl1,
      setTopic_lookup_self s t l hl]
    simp [hmem]

theorem unsubscribe_fn_ne (s : Reg) (t t2 : String) (arg : UnsubArg)
    (h : t2 ≠ t) :
    lookupTopic (unsubscribe s t arg).1 t2 = lookupTopic s t2 := by
  unfold unsubscribe
  cases hl : lookupTopic s t with
  | none => simp
  | some l =>
    match arg with
    | none => simpa using lookupTopic_deleteTopic_ne s t t2 h
    | some (JSVal.num n) => simpa using lookupTopic_deleteTopic_ne s t t2 h
    | some (JSVal.func i) =>
      by_cases h2 : eraseSub l (JSVal.func i) = []
      · simpa [h2] using lookupTopic_deleteTopic_ne s t t2 h
      · simpa [h2] using lookupTopic_setTopic_ne s t t2 _ h

theorem unsubscribe_absent (s : Reg) (t : String) (arg : UnsubArg)
    (hl : lookupTopic s t = none) : unsubscribe s t arg = (s, false) := by
  unfold unsubscribe
  rw [hl]

theorem unsubscribe_fn_present (s : Reg) (t : String) (i : Nat) (l : List JSVal)
    (hl : lookupTopic s t = some l) :
    unsubscribe s t (some (JSVal.func i)) =
      (if eraseSub l (JSVal.func i) = []
       then deleteTopic s t
       else setTopic s t (eraseSub l (JSVal.func i)),
       decide (JSVal.func i ∈ l)) := by
  unfold unsubscribe
  rw [hl]
  by_cases h2 : eraseSub l (JSVal.func i) = [] <;> simp [h2]

theorem unsubscribe_nonfn_present (s : Reg) (t : String) (l : List JSVal)
    (arg : UnsubArg) (hl : lookupTopic s t = some l)
    (ha : ∀ i, arg ≠ some (JSVal.func i)) :
    unsubscribe s t arg = (deleteTopic s t, true) := by
  unfold unsubscribe
  rw [hl]
  match arg with
  | none => rfl
  | some (JSVal.num n) => rfl
  | some (JSVal.func i) => exact absurd rfl (ha i)

theorem unsubscribe_fn_self_not_mem (s : Reg) (t : String) (i : Nat)
    (hwf : wfReg s) :
    JSVal.func i ∉ subsOf (unsubscribe s t (some (JSVal.func i))).1 t := by
  cases hl : lookupTopic s t with
  | none =>
    rw [unsubscribe_absent s t _ hl]
    unfold subsOf
    rw [hl]
    simp
  | some l =>
    obtain ⟨_, hnd⟩ := wf_lookup s t l hwf hl
    rw [unsubscribe_fn_present s t i l hl]
    by_cases h2 : eraseSub l (JSVal.func i) = []
    · rw [if_pos h2]
      unfold subsOf
      simp only
      rw [lookupTopic_deleteTopic_self s t hwf.1]
      simp
    · rw [if_neg h2]
      unfold subsOf
      simp only
      rw [lookupTopic_setTopic_self]
      simpa using not_mem_eraseSub_self l _ hnd

/-- The effect of the single-callback branch of `unsubscribe` on the
topic's own set: the reference is erased, and the entry disappears when
the set empties. -/
theorem subsOf_unsubscribe_fn (s : Reg) (t : String) (i : Nat)
    (hwf : wfReg s) :
    subsOf (unsubscribe s t (some (JSVal.func i))).1 t
      = eraseSub (subsOf s t) (JSVal.func i) := by
  cases hl : lookupTopic s t with
  | none =>
    rw [unsubscribe_absent s t _ hl]
    unfold subsOf
    rw [hl]
    simp [eraseSub]
  | some l =>
    rw [unsubscribe_fn_present s t i l hl]
    by_cases h2 : eraseSub l (JSVal.func i) = []
    · rw [if_pos h2]
      unfold subsOf
      simp only
      rw [lookupTopic_deleteTopic_self s t hwf.1, hl]
      simp [h2]
    · rw [if_neg h2]
      unfold subsOf
      simp only
      rw [lookupTopic_setTopic_self, hl]
      simp

/-! ## Dispatch-layer notions and lemmas -/

/-- Whether a subscriber value is an invocable function. -/
def isFunc : JSVal → Bool
  | JSVal.func _ => true
  | JSVal.num _ => false

/-- Whether invoking this subscriber value throws: a non-function always
does (a `TypeError`), a function does when its body throws. -/
def throwsCb (env : Env) : JSVal → Bool
  | JSVal.func i => decide (env i = CbAct.base BAct.throwErr)
  | JSVal.num _ => true

/-- A subscriber value whose invocation does not touch the registry:
a non-function (its call throws before running), or a function that
returns or throws without calling any registry operation. -/
def inert (env : Env) : JSVal → Bool
  | JSVal.func i =>
    decide (env i = CbAct.base BAct.pure)
      || decide (env i = CbAct.base BAct.throwErr)
  | JSVal.num _ => true

/-- The function invocations an inert subscriber value contributes. -/
def inertCalls (a : Arg) : JSVal → List (JSVal × Arg)
  | JSVal.func i => [(JSVal.func i, a)]
  | JSVal.num _ => []

/-- The error-handler invocations an inert subscriber value contributes. -/
def inertErrs (env : Env) (pt : String) (w : Bool) (c : JSVal) : List (String × Bool) :=
  if throwsCb env c then [(pt, w)] else []

theorem execCb_inert (env : Env) (pt dt : String) (w : Bool) (a : Arg)
    (c : JSVal) (ds : DS) (h : inert env c = true) :
    execCb env pt dt w a c ds =
      { ds with calls := ds.calls ++ inertCalls a c,
                errors := ds.errors ++ inertErrs env pt w c } := by
  match c with
  | JSVal.num n => simp [execCb, inertCalls, inertErrs, throwsCb]
  | JSVal.func i =>
    simp only [inert, Bool.or_eq_true, decide_eq_true_eq] at h
    rcases h with h | h <;>
      simp [execCb, inertCalls, inertErrs, throwsCb, h]

theorem run_pending_nil (env : Env) (pt dt : String) (w : Bool) (a : Arg)
    (fuel : Nat) (ds : DS) (h : pendingOf ds = []) :
    runForEach env pt dt w a fuel ds = ds := by
  cases fuel with
  | zero => rfl
  | succ n =>
    unfold runForEach
    rw [h]

theorem run_step (env : Env) (pt dt : String) (w : Bool) (a : Arg)
    (fuel : Nat) (ds : DS) (c : JSVal) (r : List JSVal)
    (h : pendingOf ds = c :: r) :
    runForEach env pt dt w a (fuel + 1) ds =
      runForEach env pt dt w a fuel
        (execCb env pt dt w a c { ds with visited := ds.visited ++ [c] }) := by
  conv =>
    lhs
    unfold runForEach
  rw [h]

theorem filter_not_mem_snoc (l vis : List JSVal) (c : JSVal) :
    l.filter (fun x => !decide (x ∈ vis ++ [c])) =
      (l.filter (fun x => !decide (x ∈ vis))).filter (fun x => !decide (x = c)) := by
  rw [List.filter_filter]
  apply List.filter_congr
  intro x _
  by_cases h1 : x ∈ vis <;> by_cases h2 : x = c <;>
    simp [h1, h2, List.mem_append]

theorem filter_visited_exhausted (l vis P : List JSVal)
    (h : l.filter (fun x => !decide (x ∈ vis)) = P) :
    l.filter (fun x => !decide (x ∈ vis ++ P)) = [] := by
  rw [List.filter_eq_nil_iff]
  intro x hx
  simp only [Bool.not_eq_true', decide_eq_false_iff_not, Decidable.not_not, List.mem_append]
  by_cases h1 : x ∈ vis
  · exact Or.inl h1
  · right
    rw [← h]
    simp only [List.mem_filter, hx, true_and, Bool.not_eq_true', decide_eq_false_iff_not]
    exact h1

theorem run_inert_front (env : Env) (pt dt : String) (w : Bool) (a : Arg)
    (P : List JSVal) :
    ∀ (rest : List JSVal) (fuel : Nat) (ds : DS),
      pendingOf ds = P ++ rest → ds.cur.Nodup →
      (∀ c ∈ P, inert env c = true) →
      runForEach env pt dt w a (P.length + fuel) ds =
        runForEach env pt dt w a fuel
          { ds with visited := ds.visited ++ P,
                    calls := ds.calls ++ P.flatMap (inertCalls a),
                    errors := ds.errors ++ P.flatMap (inertErrs env pt w) } := by
  induction P with
  | nil =>
    intro rest fuel ds hpend hnd hin
    simp
  | cons c P ih =>
    intro rest fuel ds hpend hnd hin
    have hlen : (c :: P).length + fuel = (P.length + fuel) + 1 := by
      simp only [List.length_cons]
      omega
    rw [hlen, run_step env pt dt w a _ ds c (P ++ rest) hpend,
      execCb_inert env pt dt w a c _ (hin c (List.mem_cons_self _ _))]
    have hnodup : (c :: (P ++ rest)).Nodup := by
      have h0 : (pendingOf ds).Nodup := List.Nodup.filter _ hnd
      rw [hpend] at h0
      exact h0
    have hcnotin : c ∉ P ++ rest := (List.nodup_cons.mp hnodup).1
    have hpend2 :
        pendingOf { ds with visited := ds.visited ++ [c],
                            calls := ds.calls ++ inertCalls a c,
                            errors := ds.errors ++ inertErrs env pt w c }
          = P ++ rest := by
      simp only [pendingOf]
      rw [filter_not_mem_snoc ds.cur ds.visited c]
      have : ds.cur.filter (fun x => !decide (x ∈ ds.visited)) = c :: (P ++ rest) := hpend
      rw [this]
      simp only [List.filter_cons, decide_eq_true_eq, Bool.not_eq_true',
        decide_eq_false_iff_not]
      rw [if_neg (by simp)]
      apply List.filter_eq_self.mpr
      intro x hx
      simp only [Bool.not_eq_true', decide_eq_false_iff_not]
      intro hxc
      subst hxc
      exact hcnotin hx
    rw [ih rest fuel _ hpend2 hnd
      (fun c2 hc2 => hin c2 (List.mem_cons_of_mem _ hc2))]
    congr 1
    simp [List.append_assoc, List.flatMap_cons]

theorem run_inert_all (env : Env) (pt dt : String) (w : Bool) (a : Arg)
    (fuel : Nat) (ds : DS) (P : List JSVal)
    (hpend : pendingOf ds = P) (hnd : ds.cur.Nodup)
    (hin : ∀ c ∈ P, inert env c = true) (hfuel : P.length ≤ fuel) :
    runForEach env pt dt w a fuel ds =
      { ds with visited := ds.visited ++ P,
                calls := ds.calls ++ P.flatMap (inertCalls a),
                errors := ds.errors ++ P.flatMap (inertErrs env pt w) } := by
  obtain ⟨k, hk⟩ : ∃ k, fuel = P.length + k := ⟨fuel - P.length, by omega⟩
  subst hk
  rw [run_inert_front env pt dt w a P [] k ds (by simpa using hpend) hnd hin]
  apply run_pending_nil
  simp only [pendingOf]
  exact filter_visited_exhausted ds.cur ds.visited P
    (by simpa [pendingOf] using hpend)

theorem subsOf_nodup (s : Reg) (t : String) (hwf : wfReg s) :
    (subsOf s t).Nodup := by
  unfold subsOf
  cases h : lookupTopic s t with
  | none => simp
  | some l => simpa using (wf_lookup s t l hwf h).2

theorem initDS_fields (s : Reg) (dt : String) (cs : List (JSVal × Arg))
    (es : List (String × Bool)) :
    initDS s dt cs es = ⟨s, subsOf s dt, (lookupTopic s dt).isSome, [], cs, es⟩ := by
  unfold initDS subsOf
  cases lookupTopic s dt <;> simp

/-- One full `forEach` pass over the set of `dt` when every member is
inert: the registry is untouched and the logs record each member once,
in insertion order. -/
theorem runPhase_inert (env : Env) (pt dt : String) (w : Bool) (a : Arg)
    (fuel : Nat) (s : Reg) (cs : List (JSVal × Arg)) (es : List (String × Bool))
    (hwf : wfReg s) (hin : ∀ c ∈ subsOf s dt, inert env c = true)
    (hfuel : (subsOf s dt).length ≤ fuel) :
    runForEach env pt dt w a fuel (initDS s dt cs es) =
      ⟨s, subsOf s dt, (lookupTopic s dt).isSome, subsOf s dt,
       cs ++ (subsOf s dt).flatMap (inertCalls a),
       es ++ (subsOf s dt).flatMap (inertErrs env pt w)⟩ := by
  rw [initDS_fields]
  rw [run_inert_all env pt dt w a fuel _ (subsOf s dt) (by simp [pendingOf])
    (subsOf_nodup s dt hwf) hin hfuel]
  simp

/-- `publish` with only inert subscribers: the registry is unchanged, the
return value reflects the direct-topic entry at call time, each direct
subscriber receives the raw payload, and — unless the topic is `"*"` —
each wildcard subscriber receives the envelope; each throwing subscriber
contributes one error-handler call with the published topic and the
correct wildcard flag. -/
theorem publish_passive (env : Env) (fuel : Nat) (s : Reg) (t : String) (d : Nat)
    (hwf : wfReg s)
    (hin1 : ∀ c ∈ subsOf s t, inert env c = true)
    (hin2 : ∀ c ∈ subsOf s "*", inert env c = true)
    (hf1 : (subsOf s t).length ≤ fuel) (hf2 : (subsOf s "*").length ≤ fuel) :
    publish env fuel s t d =
      ⟨s, (lookupTopic s t).isSome,
       (subsOf s t).flatMap (inertCalls (Arg.raw d))
         ++ (if t = "*" then []
             else (subsOf s "*").flatMap (inertCalls (Arg.wrapped t d))),
       (subsOf s t).flatMap (inertErrs env t false)
         ++ (if t = "*" then []
             else (subsOf s "*").flatMap (inertErrs env t true))⟩ := by
  have h1 := runPhase_inert env t t false (Arg.raw d) fuel s [] [] hwf hin1 hf1
  by_cases ht : t = "*"
  · subst ht
    simp only [publish, h1, if_pos rfl]
    simp
  · have h2 := runPhase_inert env t "*" true (Arg.wrapped t d) fuel s
      ((subsOf s t).flatMap (inertCalls (Arg.raw d)))
      ((subsOf s t).flatMap (inertErrs env t false)) hwf hin2 hf2
    simp only [publish, h1, if_neg ht]
    simp only [List.nil_append] at h2 ⊢
    rw [h2]

theorem applyUnsubD_reg (dt uT : String) (uarg : UnsubArg) (ds : DS) :
    (applyUnsubD dt uT uarg ds).reg = (unsubscribe ds.reg uT uarg).1 := by
  cases uarg with
  | none =>
    unfold applyUnsubD
    split <;> rfl
  | some v =>
    cases v with
    | func i =>
      unfold applyUnsubD
      split <;> rfl
    | num n =>
      unfold applyUnsubD
      split <;> rfl

theorem execCb_reg_wf (env : Env) (pt dt : String) (w : Bool) (a : Arg)
    (c : JSVal) (ds : DS) (hwf : wfReg ds.reg) :
    wfReg (execCb env pt dt w a c ds).reg := by
  cases c with
  | num n => simpa [execCb] using hwf
  | func i =>
    cases henv : env i with
    | base b =>
      cases b with
      | pure => simpa [execCb, henv] using hwf
      | throwErr => simpa [execCb, henv] using hwf
      | unsubArg uT uarg =>
        simp only [execCb, henv, applyUnsubD_reg]
        exact wf_unsubscribe _ uT uarg hwf
    | once oT u ua =>
      cases ua with
      | pure =>
        simp [execCb, henv, applyUnsubD_reg]
        exact wf_unsubscribe _ oT _ hwf
      | throwErr =>
        simp [execCb, henv, applyUnsubD_reg]
        exact wf_unsubscribe _ oT _ hwf
      | unsubArg uT uarg =>
        simp [execCb, henv, applyUnsubD_reg]
        exact wf_unsubscribe _ oT _ (wf_unsubscribe _ uT uarg hwf)

theorem runForEach_reg_wf (env : Env) (pt dt : String) (w : Bool) (a : Arg)
    (fuel : Nat) (ds : DS) (hwf : wfReg ds.reg) :
    wfReg (runForEach env pt dt w a fuel ds).reg := by
  induction fuel generalizing ds with
  | zero => exact hwf
  | succ n ih =>
    unfold runForEach
    cases hp : pendingOf ds with
    | nil => exact hwf
    | cons c r =>
      exact ih _ (execCb_reg_wf env pt dt w a c _ hwf)

theorem publish_reg_wf (env : Env) (fuel : Nat) (s : Reg) (t : String) (d : Nat)
    (hwf : wfReg s) : wfReg (publish env fuel s t d).reg := by
  unfold publish
  have h1 : wfReg (runForEach env t t false (Arg.raw d) fuel (initDS s t [] [])).reg :=
    runForEach_reg_wf env t t false (Arg.raw d) fuel _ (by rw [initDS_fields]; exact hwf)
  by_cases ht : t = "*"
  · simpa [ht] using h1
  · simp only [if_neg ht]
    exact runForEach_reg_wf env t "*" true (Arg.wrapped t d) fuel _
      (by rw [initDS_fields]; exact h1)

theorem setTopic_setTopic (s : Reg) (t : String) (l1 l2 : List JSVal) :
    setTopic (setTopic s t l1) t l2 = setTopic s t l2 := by
  induction s with
  | nil => simp [setTopic]
  | cons p rest ih =>
    obtain ⟨k, v⟩ := p
    by_cases hk : k = t
    · subst hk
      simp [setTopic]
    · simp [setTopic, hk, ih]

theorem lookup_of_subsOf_ne_nil (s : Reg) (t : String) (h : subsOf s t ≠ []) :
    lookupTopic s t = some (subsOf s t) := by
  unfold subsOf at h ⊢
  cases hl : lookupTopic s t with
  | none => rw [hl] at h; simp at h
  | some l => simp

/-- Removing a freshly subscribed reference restores the original
registry: the `subscribeOnce` wrapper leaves no trace once it fires. -/
theorem unsubscribe_subscribe_fresh (s : Reg) (t : String) (wId : Nat)
    (hwf : wfReg s) (hfresh : JSVal.func wId ∉ subsOf s t) :
    (unsubscribe (subscribe s t (JSVal.func wId)) t (some (JSVal.func wId))).1 = s := by
  have hlook : lookupTopic (subscribe s t (JSVal.func wId)) t
      = some (subsOf s t ++ [JSVal.func wId]) := by
    rw [lookupTopic_subscribe_self, addSub_not_mem _ _ hfresh]
  rw [unsubscribe_fn_present _ t wId _ hlook]
  simp only [eraseSub_append_last _ _ hfresh]
  by_cases hnil : subsOf s t = []
  · rw [if_pos hnil]
    have hnone : lookupTopic s t = none := by
      cases hl : lookupTopic s t with
      | none => rfl
      | some l =>
        exfalso
        apply (wf_lookup s t l hwf hl).1
        unfold subsOf at hnil
        rw [hl] at hnil
        simpa using hnil
    unfold subscribe
    rw [hnone]
    exact deleteTopic_setTopic_absent s t _ hnone
  · rw [if_neg hnil]
    have hsome : lookupTopic s t = some (subsOf s t) := lookup_of_subsOf_ne_nil s t hnil
    unfold subscribe
    rw [hsome]
    exact (by rw [setTopic_setTopic, setTopic_lookup_self s t _ hsome] :
      setTopic (setTopic s t (addSub (subsOf s t) (JSVal.func wId))) t (subsOf s t) = s)

/-- Visiting the `subscribeOnce` wrapper during the direct pass: it calls
the user callback with the raw payload, then unconditionally removes
itself, restoring the pre-`subscribeOnce` registry; a throwing user
callback reaches the error handler as a non-wildcard failure after the
cleanup. -/
theorem execCb_onceWrapper (env : Env) (s : Reg) (t : String) (wId u : Nat)
    (ua : BAct) (d : Nat) (vis : List JSVal) (C0 : List (JSVal × Arg))
    (E0 : List (String × Bool)) (hwf : wfReg s)
    (henv : env wId = CbAct.once t u ua)
    (hfresh : JSVal.func wId ∉ subsOf s t)
    (hua : ua = BAct.pure ∨ ua = BAct.throwErr) :
    execCb env t t false (Arg.raw d) (JSVal.func wId)
      ⟨subscribe s t (JSVal.func wId), subsOf s t ++ [JSVal.func wId], true, vis, C0, E0⟩ =
      ⟨s, subsOf s t, !(subsOf s t).isEmpty, vis,
       C0 ++ [(JSVal.func wId, Arg.raw d), (JSVal.func u, Arg.raw d)],
       E0 ++ (if ua = BAct.throwErr then [(t, false)] else [])⟩ := by
  have hreg := unsubscribe_subscribe_fresh s t wId hwf hfresh
  rcases hua with hua | hua <;> subst hua
  · simp [execCb, henv, applyUnsubD, eraseSub_append_last _ _ hfresh, hreg]
  · simp [execCb, henv, applyUnsubD, eraseSub_append_last _ _ hfresh, hreg]

/-- The direct pass of `publish` on a registry to which a `subscribeOnce`
wrapper was just added, all previously present subscribers being inert:
every old subscriber is delivered to first, then the wrapper fires, calls
the user callback with the raw payload and removes itself, leaving the
pre-`subscribeOnce` registry. -/
theorem runPhase1_subscribeOnce (env : Env) (fuel : Nat) (s : Reg) (t : String)
    (wId u : Nat) (ua : BAct) (d : Nat)
    (hwf : wfReg s)
    (henv : env wId = CbAct.once t u ua)
    (hua : ua = BAct.pure ∨ ua = BAct.throwErr)
    (hfresh1 : JSVal.func wId ∉ subsOf s t)
    (hin1 : ∀ c ∈ subsOf s t, inert env c = true)
    (hf1 : (subsOf s t).length + 1 ≤ fuel) :
    runForEach env t t false (Arg.raw d) fuel (initDS (subscribeOnce s t wId) t [] []) =
      ⟨s, subsOf s t, !(subsOf s t).isEmpty, subsOf s t ++ [JSVal.func wId],
       (subsOf s t).flatMap (inertCalls (Arg.raw d))
         ++ [(JSVal.func wId, Arg.raw d), (JSVal.func u, Arg.raw d)],
       (subsOf s t).flatMap (inertErrs env t false)
         ++ (if ua = BAct.throwErr then [(t, false)] else [])⟩ := by
  obtain ⟨k, hk⟩ : ∃ k, fuel = (subsOf s t).length + (k + 1) :=
    ⟨fuel - (subsOf s t).length - 1, by omega⟩
  subst hk
  have hlook1 : lookupTopic (subscribeOnce s t wId) t
      = some (subsOf s t ++ [JSVal.func wId]) := by
    show lookupTopic (subscribe s t (JSVal.func wId)) t = _
    rw [lookupTopic_subscribe_self, addSub_not_mem _ _ hfresh1]
  have hsubs1 : subsOf (subscribeOnce s t wId) t = subsOf s t ++ [JSVal.func wId] := by
    unfold subsOf
    rw [hlook1]
    rfl
  have hwf1 : wfReg (subscribeOnce s t wId) := wf_subscribe s t _ hwf
  have hnd1 : (subsOf s t ++ [JSVal.func wId]).Nodup := by
    rw [← hsubs1]
    exact subsOf_nodup _ t hwf1
  have hinit : initDS (subscribeOnce s t wId) t [] []
      = ⟨subscribeOnce s t wId, subsOf s t ++ [JSVal.func wId], true, [], [], []⟩ := by
    rw [initDS_fields, hsubs1, hlook1]
    simp
  rw [hinit]
  rw [run_inert_front env t t false (Arg.raw d) (subsOf s t) [JSVal.func wId] (k + 1)
    _ (by simp [pendingOf]) (by simpa using hnd1) hin1]
  simp only [List.nil_append]
  have hpendMid :
      pendingOf ⟨subscribeOnce s t wId, subsOf s t ++ [JSVal.func wId], true,
        subsOf s t, (subsOf s t).flatMap (inertCalls (Arg.raw d)),
        (subsOf s t).flatMap (inertErrs env t false)⟩ = [JSVal.func wId] := by
    simp only [pendingOf, List.filter_append]
    rw [List.filter_eq_nil_iff.mpr (by intro a ha; simp [ha]),
      List.filter_eq_self.mpr (by intro a ha; simp at ha; subst ha; simp [hfresh1])]
    simp
  rw [run_step env t t false (Arg.raw d) k _ (JSVal.func wId) [] hpendMid]
  have hexec := execCb_onceWrapper env s t wId u ua d
    (subsOf s t ++ [JSVal.func wId])
    ((subsOf s t).flatMap (inertCalls (Arg.raw d)))
    ((subsOf s t).flatMap (inertErrs env t false)) hwf henv hfresh1 hua
  show runForEach env t t false (Arg.raw d) k
      (execCb env t t false (Arg.raw d) (JSVal.func wId)
        ⟨subscribe s t (JSVal.func wId), subsOf s t ++ [JSVal.func wId], true,
         subsOf s t ++ [JSVal.func wId],
         (subsOf s t).flatMap (inertCalls (Arg.raw d)),
         (subsOf s t).flatMap (inertErrs env t false)⟩) = _
  rw [hexec]
  rw [run_pending_nil env t t false (Arg.raw d) k _
    (by simp [pendingOf, List.mem_append]
        exact fun a ha hna => absurd ha hna)]

/-- `publish` on a registry to which a `subscribeOnce` wrapper was just
added (all other subscribers inert): the old subscribers and the wildcard
set are served as usual, the user callback fires exactly once with the
raw payload, and the final registry is the pre-`subscribeOnce` one — so
the returned `#subs.has(topic)` reflects the registry *without* the
wrapper. -/
theorem publish_subscribeOnce (env : Env) (fuel : Nat) (s : Reg) (t : String)
    (wId u : Nat) (ua : BAct) (d : Nat)
    (hwf : wfReg s)
    (henv : env wId = CbAct.once t u ua)
    (hua : ua = BAct.pure ∨ ua = BAct.throwErr)
    (hfresh1 : JSVal.func wId ∉ subsOf s t)
    (hin1 : ∀ c ∈ subsOf s t, inert env c = true)
    (hin2 : ∀ c ∈ subsOf s "*", inert env c = true)
    (hf1 : (subsOf s t).length + 1 ≤ fuel)
    (hf2 : (subsOf s "*").length ≤ fuel) :
    publish env fuel (subscribeOnce s t wId) t d =
      ⟨s, (lookupTopic s t).isSome,
       ((subsOf s t).flatMap (inertCalls (Arg.raw d))
         ++ [(JSVal.func wId, Arg.raw d), (JSVal.func u, Arg.raw d)])
         ++ (if t = "*" then []
             else (subsOf s "*").flatMap (inertCalls (Arg.wrapped t d))),
       ((subsOf s t).flatMap (inertErrs env t false)
         ++ (if ua = BAct.throwErr then [(t, false)] else []))
         ++ (if t = "*" then []
             else (subsOf s "*").flatMap (inertErrs env t true))⟩ := by
  have h1 := runPhase1_subscribeOnce env fuel s t wId u ua d hwf henv hua hfresh1 hin1 hf1
  by_cases ht : t = "*"
  · subst ht
    simp only [publish, h1, if_pos rfl]
    simp
  · have h2 := runPhase_inert env t "*" true (Arg.wrapped t d) fuel s
      ((subsOf s t).flatMap (inertCalls (Arg.raw d))
        ++ [(JSVal.func wId, Arg.raw d), (JSVal.func u, Arg.raw d)])
      ((subsOf s t).flatMap (inertErrs env t false)
        ++ (if ua = BAct.throwErr then [(t, false)] else []))
      hwf hin2 hf2
    simp only [publish, h1, if_neg ht]
    rw [h2]

/-- Mid-publish removal under live iteration: with three direct
subscribers where the first unsubscribes the second, `publish` delivers
to the first and third exactly once and *skips* the second — the `forEach`
iterates the live set, not a snapshot. -/
theorem publish_midRemoval (env : Env) (fuel : Nat) (s : Reg) (t : String)
    (i1 i2 i3 : Nat) (d : Nat)
    (hlook : lookupTopic s t = some [JSVal.func i1, JSVal.func i2, JSVal.func i3])
    (henv1 : env i1 = CbAct.base (BAct.unsubArg t (some (JSVal.func i2))))
    (henv3 : env i3 = CbAct.base BAct.pure)
    (h12 : i1 ≠ i2) (h13 : i1 ≠ i3)
    (hstar : lookupTopic s "*" = none) (ht : t ≠ "*") (hf : 2 ≤ fuel) :
    publish env fuel s t d =
      ⟨setTopic s t [JSVal.func i1, JSVal.func i3], true,
       [(JSVal.func i1, Arg.raw d), (JSVal.func i3, Arg.raw d)], []⟩ := by
  obtain ⟨k, hk⟩ : ∃ k, fuel = k + 1 + 1 := ⟨fuel - 2, by omega⟩
  have hsubs : subsOf s t = [JSVal.func i1, JSVal.func i2, JSVal.func i3] := by
    unfold subsOf
    rw [hlook]
    rfl
  have herase : eraseSub [JSVal.func i1, JSVal.func i2, JSVal.func i3]
      (JSVal.func i2) = [JSVal.func i1, JSVal.func i3] := by
    simp [eraseSub, h12]
  have hunsub : (unsubscribe s t (some (JSVal.func i2))).1
      = setTopic s t [JSVal.func i1, JSVal.func i3] := by
    rw [unsubscribe_fn_present s t i2 _ hlook, herase]
    simp
  have hexec1 : execCb env t t false (Arg.raw d) (JSVal.func i1)
      ⟨s, [JSVal.func i1, JSVal.func i2, JSVal.func i3], true, [JSVal.func i1], [], []⟩ =
      ⟨setTopic s t [JSVal.func i1, JSVal.func i3], [JSVal.func i1, JSVal.func i3],
       true, [JSVal.func i1], [(JSVal.func i1, Arg.raw d)], []⟩ := by
    simp [execCb, henv1, applyUnsubD, herase, hunsub]
  have h1 : runForEach env t t false (Arg.raw d) fuel (initDS s t [] []) =
      ⟨setTopic s t [JSVal.func i1, JSVal.func i3], [JSVal.func i1, JSVal.func i3],
       true, [JSVal.func i1, JSVal.func i3],
       [(JSVal.func i1, Arg.raw d), (JSVal.func i3, Arg.raw d)], []⟩ := by
    rw [initDS_fields, hsubs, hlook, hk]
    simp only [Option.isSome_some]
    rw [run_step env t t false (Arg.raw d) (k + 1)
      ⟨s, [JSVal.func i1, JSVal.func i2, JSVal.func i3], true, [], [], []⟩
      (JSVal.func i1) [JSVal.func i2, JSVal.func i3] (by simp [pendingOf])]
    show runForEach env t t false (Arg.raw d) (k + 1)
      (execCb env t t false (Arg.raw d) (JSVal.func i1)
        ⟨s, [JSVal.func i1, JSVal.func i2, JSVal.func i3], true, [JSVal.func i1], [], []⟩) = _
    rw [hexec1]
    rw [run_step env t t false (Arg.raw d) k _ (JSVal.func i3) []
      (by simp [pendingOf, Ne.symm h13])]
    show runForEach env t t false (Arg.raw d) k
      (execCb env t t false (Arg.raw d) (JSVal.func i3)
        ⟨setTopic s t [JSVal.func i1, JSVal.func i3], [JSVal.func i1, JSVal.func i3],
         true, [JSVal.func i1, JSVal.func i3], [(JSVal.func i1, Arg.raw d)], []⟩) = _
    rw [show execCb env t t false (Arg.raw d) (JSVal.func i3)
        ⟨setTopic s t [JSVal.func i1, JSVal.func i3], [JSVal.func i1, JSVal.func i3],
         true, [JSVal.func i1, JSVal.func i3], [(JSVal.func i1, Arg.raw d)], []⟩ =
        ⟨setTopic s t [JSVal.func i1, JSVal.func i3], [JSVal.func i1, JSVal.func i3],
         true, [JSVal.func i1, JSVal.func i3],
         [(JSVal.func i1, Arg.raw d), (JSVal.func i3, Arg.raw d)], []⟩ from by
      simp [execCb, henv3]]
    exact run_pending_nil env t t false (Arg.raw d) k _ (by simp [pendingOf])
  have hlook2 : lookupTopic (setTopic s t [JSVal.func i1, JSVal.func i3]) "*" = none := by
    rw [lookupTopic_setTopic_ne s t _ _ (Ne.symm ht)]
    exact hstar
  have h2 : runForEach env t "*" true (Arg.wrapped t d) fuel
      (initDS (setTopic s t [JSVal.func i1, JSVal.func i3]) "*"
        [(JSVal.func i1, Arg.raw d), (JSVal.func i3, Arg.raw d)] []) =
      ⟨setTopic s t [JSVal.func i1, JSVal.func i3], [], false, [],
       [(JSVal.func i1, Arg.raw d), (JSVal.func i3, Arg.raw d)], []⟩ := by
    rw [initDS_fields]
    have hsubs2 : subsOf (setTopic s t [JSVal.func i1, JSVal.func i3]) "*" = [] := by
      unfold subsOf
      rw [hlook2]
      rfl
    rw [hsubs2, hlook2]
    exact run_pending_nil env t "*" true (Arg.wrapped t d) fuel _ (by simp [pendingOf])
  simp only [publish, h1, if_neg ht]
  rw [h2]
  simp [lookupTopic_setTopic_self]

theorem wf_noEmpty (s : Reg) (h : wfReg s) : noEmptyTopics s :=
  fun p hp => (h.2 p hp).1

theorem flatMap_inertCalls_funcs (a : Arg) (P : List JSVal)
    (h : ∀ c ∈ P, isFunc c = true) :
    P.flatMap (inertCalls a) = P.map (fun c => (c, a)) := by
  induction P with
  | nil => simp
  | cons c P ih =>
    have hc := h c (List.mem_cons_self _ _)
    cases c with
    | func i =>
      simp only [List.flatMap_cons, List.map_cons, inertCalls]
      rw [ih (fun x hx => h x (List.mem_cons_of_mem _ hx))]
      simp
    | num n => simp [isFunc] at hc

theorem flatMap_inertErrs_eq (env : Env) (pt : String) (w : Bool) (P : List JSVal) :
    P.flatMap (inertErrs env pt w)
      = (P.filter (throwsCb env)).map (fun _ => (pt, w)) := by
  induction P with
  | nil => simp
  | cons c P ih =>
    by_cases hthrow : throwsCb env c = true <;>
      simp [inertErrs, List.filter_cons, hthrow, ih]

theorem mem_flatMap_inertCalls (a : Arg) (P : List JSVal) (e : JSVal × Arg)
    (he : e ∈ P.flatMap (inertCalls a)) : e.1 ∈ P := by
  simp only [List.mem_flatMap] at he
  obtain ⟨c, hc, he2⟩ := he
  cases c with
  | func i =>
    simp only [inertCalls, List.mem_singleton] at he2
    subst he2
    exact hc
  | num n => simp [inertCalls] at he2

theorem filter_inertCalls_not_mem (a : Arg) (P : List JSVal) (u : Nat)
    (hu : JSVal.func u ∉ P) :
    (P.flatMap (inertCalls a)).filter (fun e => decide (e.1 = JSVal.func u)) = [] := by
  rw [List.filter_eq_nil_iff]
  intro e he
  simp only [decide_eq_true_eq]
  intro hcon
  apply hu
  rw [← hcon]
  exact mem_flatMap_inertCalls a P e he

theorem isSubscribed_wildcard_eq (s : Reg) (t : String) (v : JSVal) :
    isSubscribed s t v true
      = (decide (v ∈ subsOf s t) || decide (v ∈ subsOf s "*")) := by
  unfold isSubscribed subsOf
  cases lookupTopic s t <;> cases lookupTopic s "*" <;> simp

theorem mem_subsOf_subscribe_self (s : Reg) (t : String) (v : JSVal) :
    v ∈ subsOf (subscribe s t v) t := by
  unfold subsOf
  rw [lookupTopic_subscribe_self]
  simpa using mem_addSub_self (subsOf s t) v

theorem lookup_isSome_iff_ne_nil (s : Reg) (t : String) (hwf : wfReg s) :
    (lookupTopic s t).isSome = true ↔ subsOf s t ≠ [] := by
  cases hl : lookupTopic s t with
  | none =>
    unfold subsOf
    rw [hl]
    simp
  | some l =>
    unfold subsOf
    rw [hl]
    simpa using (wf_lookup s t l hwf hl).1

/-! ## Concrete instances used by witnesses and counterexamples -/

/-- Every function reference returns normally. -/
def envAllPure : Env := fun _ => CbAct.base BAct.pure

/-- Function reference 2 throws; all others return normally. -/
def envThrow2 : Env := fun i =>
  if i = 2 then CbAct.base BAct.throwErr else CbAct.base BAct.pure

/-- Reference 0 is a `subscribeOnce("foo", cb)` wrapper around user
callback 1 that returns normally. -/
def envOnceFoo : Env := fun i =>
  if i = 0 then CbAct.once "foo" 1 BAct.pure else CbAct.base BAct.pure

/-- Reference 0 is a `subscribeOnce("foo", cb)` wrapper around user
callback 1 that throws. -/
def envOnceThrow : Env := fun i =>
  if i = 0 then CbAct.once "foo" 1 BAct.throwErr else CbAct.base BAct.pure

/-- Reference 1 calls `unsubscribe("a", callback 2)` when invoked. -/
def envUnsub1 : Env := fun i =>
  if i = 1 then CbAct.base (BAct.unsubArg "a" (some (JSVal.func 2)))
  else CbAct.base BAct.pure

/-! ## The claims -/

/-- C1. For a topic `t ≠ "*"`, `publish(t, d)` calls every direct
subscriber of `t` with the raw payload and every subscriber of `"*"` with
the envelope `{event: t, data: d}` — wildcard subscribers never get a raw
call for a non-wildcard publish and direct subscribers never get the
envelope (the call log is exactly these two blocks); `publish("*", d)`
calls only `"*"`'s own subscribers, with the raw payload. Stated for
registries of invocable, registry-passive callbacks, which is the regime
the claim describes. -/
theorem C1_publish_delivery (env : Env) (fuel : Nat) (s : Reg) (t : String) (d : Nat)
    (hwf : wfReg s)
    (hfn1 : ∀ c ∈ subsOf s t, isFunc c = true)
    (hfn2 : ∀ c ∈ subsOf s "*", isFunc c = true)
    (hin1 : ∀ c ∈ subsOf s t, inert env c = true)
    (hin2 : ∀ c ∈ subsOf s "*", inert env c = true)
    (hf1 : (subsOf s t).length ≤ fuel) (hf2 : (subsOf s "*").length ≤ fuel)
    (ht : t ≠ "*") :
    (publish env fuel s t d).calls
      = (subsOf s t).map (fun c => (c, Arg.raw d))
        ++ (subsOf s "*").map (fun c => (c, Arg.wrapped t d))
    ∧ (publish env fuel s "*" d).calls
      = (subsOf s "*").map (fun c => (c, Arg.raw d)) := by
  constructor
  · rw [publish_passive env fuel s t d hwf hin1 hin2 hf1 hf2]
    show (subsOf s t).flatMap (inertCalls (Arg.raw d))
        ++ (if t = "*" then []
            else (subsOf s "*").flatMap (inertCalls (Arg.wrapped t d))) = _
    rw [if_neg ht, flatMap_inertCalls_funcs _ _ hfn1, flatMap_inertCalls_funcs _ _ hfn2]
  · rw [publish_passive env fuel s "*" d hwf hin2 hin2 hf2 hf2]
    show (subsOf s "*").flatMap (inertCalls (Arg.raw d))
        ++ (if "*" = "*" then []
            else (subsOf s "*").flatMap (inertCalls (Arg.wrapped "*" d))) = _
    rw [if_pos rfl, flatMap_inertCalls_funcs _ _ hfn2]
    simp

/-- Registry with one direct `"foo"` subscriber and one wildcard
subscriber, used by witnesses. -/
def regTwo : Reg := [("foo", [JSVal.func 0]), ("*", [JSVal.func 1])]

theorem C1_witness :
    (publish envAllPure 5 regTwo "foo" 3).calls
      = (subsOf regTwo "foo").map (fun c => (c, Arg.raw 3))
        ++ (subsOf regTwo "*").map (fun c => (c, Arg.wrapped "foo" 3))
    ∧ (publish envAllPure 5 regTwo "*" 3).calls
      = (subsOf regTwo "*").map (fun c => (c, Arg.raw 3)) :=
  C1_publish_delivery envAllPure 5 regTwo "foo" 3 (by decide) (by decide) (by decide)
    (by decide) (by decide) (by decide) (by decide) (by decide)

/-- C2. During `publish`, a throwing subscriber is caught: the error
handler receives `(topic, isWildcard)` exactly once per throwing
subscriber — `isWildcard` true exactly for wildcard-pass failures — and
every other subscriber (direct and wildcard) is still called; `publish`
itself always returns normally (it is a total function of the model by
construction, mirroring the per-callback try/catch). -/
theorem C2_error_isolation (env : Env) (fuel : Nat) (s : Reg) (t : String) (d : Nat)
    (hwf : wfReg s)
    (hfn1 : ∀ c ∈ subsOf s t, isFunc c = true)
    (hfn2 : ∀ c ∈ subsOf s "*", isFunc c = true)
    (hin1 : ∀ c ∈ subsOf s t, inert env c = true)
    (hin2 : ∀ c ∈ subsOf s "*", inert env c = true)
    (hf1 : (subsOf s t).length ≤ fuel) (hf2 : (subsOf s "*").length ≤ fuel) :
    (publish env fuel s t d).errors
      = ((subsOf s t).filter (throwsCb env)).map (fun _ => (t, false))
        ++ (if t = "*" then []
            else ((subsOf s "*").filter (throwsCb env)).map (fun _ => (t, true)))
    ∧ (publish env fuel s t d).calls
      = (subsOf s t).map (fun c => (c, Arg.raw d))
        ++ (if t = "*" then []
            else (subsOf s "*").map (fun c => (c, Arg.wrapped t d))) := by
  rw [publish_passive env fuel s t d hwf hin1 hin2 hf1 hf2]
  constructor
  · show (subsOf s t).flatMap (inertErrs env t false)
        ++ (if t = "*" then []
            else (subsOf s "*").flatMap (inertErrs env t true)) = _
    by_cases ht : t = "*" <;> simp [ht, flatMap_inertErrs_eq]
  · show (subsOf s t).flatMap (inertCalls (Arg.raw d))
        ++ (if t = "*" then []
            else (subsOf s "*").flatMap (inertCalls (Arg.wrapped t d))) = _
    by_cases ht : t = "*" <;>
      simp [ht, flatMap_inertCalls_funcs _ _ hfn1, flatMap_inertCalls_funcs _ _ hfn2]

/-- Registry with three direct `"x"` subscribers (the first throws) and
one wildcard subscriber that also throws, used by the C2 witness. -/
def regThrow : Reg := [("x", [JSVal.func 2, JSVal.func 0, JSVal.func 3]),
  ("*", [JSVal.func 2])]

theorem C2_witness :
    (publish envThrow2 5 regThrow "x" 1).errors
      = ((subsOf regThrow "x").filter (throwsCb envThrow2)).map (fun _ => ("x", false))
        ++ (if "x" = "*" then []
            else ((subsOf regThrow "*").filter (throwsCb envThrow2)).map
              (fun _ => ("x", true)))
    ∧ (publish envThrow2 5 regThrow "x" 1).calls
      = (subsOf regThrow "x").map (fun c => (c, Arg.raw 1))
        ++ (if "x" = "*" then []
            else (subsOf regThrow "*").map (fun c => (c, Arg.wrapped "x" 1))) :=
  C2_error_isolation envThrow2 5 regThrow "x" 1 (by decide) (by decide) (by decide)
    (by decide) (by decide) (by decide) (by decide)

/-- C3 counterexample. After `subscribeOnce("foo", cb)` the topic has a
direct subscriber (the wrapper), yet `publish("foo", 5)` returns `false`:
the source computes `this.#subs.has(topic)` *after* dispatch, and the
wrapper has removed itself (emptying and deleting the topic entry) by
then — contradicting "at the moment publish was called, regardless of
unsubscriptions performed by callbacks during the dispatch". -/
theorem C3_counterexample :
    subsOf (subscribeOnce ([] : Reg) "foo" 0) "foo" = [JSVal.func 0]
    ∧ (publish envOnceFoo 2 (subscribeOnce ([] : Reg) "foo" 0) "foo" 5).ret = false :=
  ⟨rfl, rfl⟩

/-- C3 amended. `publish(t, d)` returns whether the exact topic `t` (not
counting wildcard) is present in the mapping *after* dispatch completes;
when no callback mutates the registry during the dispatch (all
subscribers inert), this coincides with direct-subscriber presence at
call time. -/
theorem C3_return_value (env : Env) (fuel : Nat) (s : Reg) (t : String) (d : Nat)
    (hwf : wfReg s)
    (hin1 : ∀ c ∈ subsOf s t, inert env c = true)
    (hin2 : ∀ c ∈ subsOf s "*", inert env c = true)
    (hf1 : (subsOf s t).length ≤ fuel) (hf2 : (subsOf s "*").length ≤ fuel) :
    (∀ (env2 : Env) (fuel2 : Nat),
      (publish env2 fuel2 s t d).ret
        = (lookupTopic (publish env2 fuel2 s t d).reg t).isSome)
    ∧ ((publish env fuel s t d).ret = true ↔ subsOf s t ≠ []) := by
  constructor
  · intro env2 fuel2
    rfl
  · rw [publish_passive env fuel s t d hwf hin1 hin2 hf1 hf2]
    exact lookup_isSome_iff_ne_nil s t hwf

theorem C3_witness :
    (∀ (env2 : Env) (fuel2 : Nat),
      (publish env2 fuel2 regTwo "foo" 3).ret
        = (lookupTopic (publish env2 fuel2 regTwo "foo" 3).reg "foo").isSome)
    ∧ ((publish envAllPure 5 regTwo "foo" 3).ret = true ↔ subsOf regTwo "foo" ≠ []) :=
  C3_return_value envAllPure 5 regTwo "foo" 3 (by decide) (by decide) (by decide)
    (by decide) (by decide)

/-- C4. Every operation preserves the cleanup invariant: no topic entry
with an empty subscriber set survives the operation that empties it
(`isSubscribed` does not mutate the registry at all — it is a pure
function of the model — and the unsubscriber returned by `subscribe` is
exactly the `unsubscribe` call covered below; `publish` is covered for
every callback behaviour of the modelled action language). -/
theorem C4_no_empty_topics (s : Reg) (t : String) (v : JSVal) (arg : UnsubArg)
    (ot : Option String) (wId : Nat) (env : Env) (fuel : Nat) (d : Nat)
    (hwf : wfReg s) :
    noEmptyTopics (subscribe s t v)
    ∧ noEmptyTopics (subscribeOnce s t wId)
    ∧ noEmptyTopics (unsubscribe s t arg).1
    ∧ noEmptyTopics (unsubscribeAll s ot).1
    ∧ noEmptyTopics (publish env fuel s t d).reg :=
  ⟨wf_noEmpty _ (wf_subscribe s t v hwf),
   wf_noEmpty _ (wf_subscribe s t _ hwf),
   wf_noEmpty _ (wf_unsubscribe s t arg hwf),
   wf_noEmpty _ (wf_unsubscribeAll s ot hwf),
   wf_noEmpty _ (publish_reg_wf env fuel s t d hwf)⟩

theorem C4_witness :
    noEmptyTopics (subscribe regTwo "foo" (JSVal.func 7))
    ∧ noEmptyTopics (subscribeOnce regTwo "foo" 8)
    ∧ noEmptyTopics (unsubscribe regTwo "foo" (some (JSVal.func 0))).1
    ∧ noEmptyTopics (unsubscribeAll regTwo (some "foo")).1
    ∧ noEmptyTopics (publish envAllPure 5 regTwo "foo" 3).reg :=
  C4_no_empty_topics regTwo "foo" (JSVal.func 7) (some (JSVal.func 0))
    (some "foo") 8 envAllPure 5 3 (by decide)

/-- C5. After `subscribeOnce(t, cb)` (wrapper reference `wId`, user
callback `u` with body `ua`), publishing to `t` twice invokes `cb`
exactly once — with the first publish's payload — and the wrapper is
removed from `t` by the first publish even when `cb` throws
(`ua = throwErr`). Stated for a user callback not otherwise subscribed
and with the other subscribers inert. -/
theorem C5_subscribe_once_semantics (env : Env) (fuel1 fuel2 : Nat) (s : Reg)
    (t : String) (wId u : Nat) (ua : BAct) (d1 d2 : Nat)
    (hwf : wfReg s)
    (henv : env wId = CbAct.once t u ua)
    (hua : ua = BAct.pure ∨ ua = BAct.throwErr)
    (hwu : wId ≠ u)
    (hfresh1 : JSVal.func wId ∉ subsOf s t)
    (hufresh1 : JSVal.func u ∉ subsOf s t)
    (hufresh2 : JSVal.func u ∉ subsOf s "*")
    (hin1 : ∀ c ∈ subsOf s t, inert env c = true)
    (hin2 : ∀ c ∈ subsOf s "*", inert env c = true)
    (hf1 : (subsOf s t).length + 1 ≤ fuel1)
    (hf2 : (subsOf s "*").length ≤ fuel1)
    (hg1 : (subsOf s t).length ≤ fuel2)
    (hg2 : (subsOf s "*").length ≤ fuel2) :
    ((publish env fuel1 (subscribeOnce s t wId) t d1).calls
        ++ (publish env fuel2 (publish env fuel1 (subscribeOnce s t wId) t d1).reg
              t d2).calls).filter (fun e => decide (e.1 = JSVal.func u))
      = [(JSVal.func u, Arg.raw d1)]
    ∧ JSVal.func wId ∉ subsOf (publish env fuel1 (subscribeOnce s t wId) t d1).reg t := by
  have h1 := publish_subscribeOnce env fuel1 s t wId u ua d1 hwf henv hua hfresh1
    hin1 hin2 hf1 hf2
  have hreg : (publish env fuel1 (subscribeOnce s t wId) t d1).reg = s := by
    rw [h1]
  constructor
  · rw [hreg, publish_passive env fuel2 s t d2 hwf hin1 hin2 hg1 hg2, h1]
    show (((subsOf s t).flatMap (inertCalls (Arg.raw d1))
        ++ [(JSVal.func wId, Arg.raw d1), (JSVal.func u, Arg.raw d1)]
        ++ (if t = "*" then []
            else (subsOf s "*").flatMap (inertCalls (Arg.wrapped t d1))))
        ++ ((subsOf s t).flatMap (inertCalls (Arg.raw d2))
        ++ (if t = "*" then []
            else (subsOf s "*").flatMap (inertCalls (Arg.wrapped t d2))))).filter
        (fun e => decide (e.1 = JSVal.func u)) = [(JSVal.func u, Arg.raw d1)]
    by_cases ht : t = "*" <;>
      simp [ht, List.filter_append, List.filter_cons, hwu,
        filter_inertCalls_not_mem _ _ _ hufresh1,
        filter_inertCalls_not_mem _ _ _ hufresh2]
  · rw [hreg]
    exact hfresh1

theorem C5_witness :
    ((publish envOnceThrow 1 (subscribeOnce ([] : Reg) "foo" 0) "foo" 4).calls
        ++ (publish envOnceThrow 1
              (publish envOnceThrow 1 (subscribeOnce ([] : Reg) "foo" 0) "foo" 4).reg
              "foo" 9).calls).filter (fun e => decide (e.1 = JSVal.func 1))
      = [(JSVal.func 1, Arg.raw 4)]
    ∧ JSVal.func 0 ∉ subsOf
        (publish envOnceThrow 1 (subscribeOnce ([] : Reg) "foo" 0) "foo" 4).reg "foo" :=
  C5_subscribe_once_semantics envOnceThrow 1 1 ([] : Reg) "foo" 0 1 BAct.throwErr 4 9
    (by decide) (by decide) (Or.inr rfl) (by decide) (by decide) (by decide)
    (by decide) (by decide) (by decide) (by decide) (by decide) (by decide) (by decide)

/-- C6 counterexample. Topic `"a"` has two subscribers registered at the
start of the publish; the first unsubscribes the second, which has not
yet been invoked — and the second is then never invoked in this publish
pass (the live `forEach` skips it), contradicting "that other callback is
still invoked exactly once in this publish pass". -/
theorem C6_counterexample :
    (publish envUnsub1 5 [("a", [JSVal.func 1, JSVal.func 2])] "a" 0).calls
      = [(JSVal.func 1, Arg.raw 0)]
    ∧ ∀ a : Arg, (JSVal.func 2, a)
        ∉ (publish envUnsub1 5 [("a", [JSVal.func 1, JSVal.func 2])] "a" 0).calls := by
  have h : (publish envUnsub1 5 [("a", [JSVal.func 1, JSVal.func 2])] "a" 0).calls
      = [(JSVal.func 1, Arg.raw 0)] := rfl
  refine ⟨h, fun a => ?_⟩
  rw [h]
  simp

/-- C6 amended. The dispatch loop iterates the live set, not a snapshot:
a callback removed mid-publish before its turn is *skipped*, while every
other registered callback — before or after the removal point — is still
invoked exactly once and the remaining registry reflects the removal.
Shown on a topic with three subscribers whose first removes the second. -/
theorem C6_mid_publish_removal (env : Env) (fuel : Nat) (s : Reg) (t : String)
    (i1 i2 i3 : Nat) (d : Nat)
    (hlook : lookupTopic s t = some [JSVal.func i1, JSVal.func i2, JSVal.func i3])
    (henv1 : env i1 = CbAct.base (BAct.unsubArg t (some (JSVal.func i2))))
    (henv3 : env i3 = CbAct.base BAct.pure)
    (h12 : i1 ≠ i2) (h13 : i1 ≠ i3)
    (hstar : lookupTopic s "*" = none) (ht : t ≠ "*") (hf : 2 ≤ fuel) :
    publish env fuel s t d =
      ⟨setTopic s t [JSVal.func i1, JSVal.func i3], true,
       [(JSVal.func i1, Arg.raw d), (JSVal.func i3, Arg.raw d)], []⟩ :=
  publish_midRemoval env fuel s t i1 i2 i3 d hlook henv1 henv3 h12 h13 hstar ht hf

theorem C6_witness :
    publish envUnsub1 5 [("a", [JSVal.func 1, JSVal.func 2, JSVal.func 3])] "a" 7 =
      ⟨setTopic [("a", [JSVal.func 1, JSVal.func 2, JSVal.func 3])] "a"
        [JSVal.func 1, JSVal.func 3], true,
       [(JSVal.func 1, Arg.raw 7), (JSVal.func 3, Arg.raw 7)], []⟩ :=
  C6_mid_publish_removal envUnsub1 5 [("a", [JSVal.func 1, JSVal.func 2, JSVal.func 3])]
    "a" 1 2 3 7 (by decide) (by decide) (by decide) (by decide) (by decide)
    (by decide) (by decide) (by decide)

/-- C7. After `subscribe(T, S)`, `isSubscribed(T, S)` is true; invoking
the unsubscriber returned by that call makes it false (provided `S` is
not also subscribed to `"*"`, since `isSubscribed` defaults to
considering the wildcard); invoking the same unsubscriber a second time
changes nothing and reports `false`; and invoking it after
`unsubscribeAll(T)` cleared the topic is the same silent no-op. The
unsubscriber returned by `subscribe(T, S)` is the closure
`() => unsubscribe(T, S)`, modelled as that call. -/
theorem C7_unsubscriber_lifecycle (s : Reg) (t : String) (i : Nat) (hwf : wfReg s)
    (hstar : t = "*" ∨ JSVal.func i ∉ subsOf s "*") :
    isSubscribed (subscribe s t (JSVal.func i)) t (JSVal.func i) true = true
    ∧ isSubscribed (unsubscribe (subscribe s t (JSVal.func i)) t
        (some (JSVal.func i))).1 t (JSVal.func i) true = false
    ∧ unsubscribe (unsubscribe (subscribe s t (JSVal.func i)) t
        (some (JSVal.func i))).1 t (some (JSVal.func i))
      = ((unsubscribe (subscribe s t (JSVal.func i)) t (some (JSVal.func i))).1, false)
    ∧ unsubscribe (unsubscribeAll (subscribe s t (JSVal.func i)) (some t)).1
        t (some (JSVal.func i))
      = ((unsubscribeAll (subscribe s t (JSVal.func i)) (some t)).1, false) := by
  have hwf1 : wfReg (subscribe s t (JSVal.func i)) := wf_subscribe s t _ hwf
  have hwf2 : wfReg (unsubscribe (subscribe s t (JSVal.func i)) t
      (some (JSVal.func i))).1 := wf_unsubscribe _ t _ hwf1
  have hnot1 : JSVal.func i ∉ subsOf (unsubscribe (subscribe s t (JSVal.func i)) t
      (some (JSVal.func i))).1 t := unsubscribe_fn_self_not_mem _ t i hwf1
  have hnot2 : JSVal.func i ∉ subsOf (unsubscribe (subscribe s t (JSVal.func i)) t
      (some (JSVal.func i))).1 "*" := by
    by_cases hts : t = "*"
    · subst hts
      exact hnot1
    · have hl2 : lookupTopic (unsubscribe (subscribe s t (JSVal.func i)) t
          (some (JSVal.func i))).1 "*" = lookupTopic s "*" := by
        rw [unsubscribe_fn_ne _ t "*" _ (fun hh => hts hh.symm),
          lookupTopic_subscribe_ne s t "*" _ (fun hh => hts hh.symm)]
      have hsub2 : subsOf (unsubscribe (subscribe s t (JSVal.func i)) t
          (some (JSVal.func i))).1 "*" = subsOf s "*" := by
        unfold subsOf
        rw [hl2]
      rw [hsub2]
      rcases hstar with h | h
      · exact absurd h hts
      · exact h
  refine ⟨?_, ?_, ?_, ?_⟩
  · rw [isSubscribed_wildcard_eq]
    simp [mem_subsOf_subscribe_self]
  · rw [isSubscribed_wildcard_eq]
    simp [hnot1, hnot2]
  · exact unsubscribe_noop _ t i hwf2 hnot1
  · have hnot3 : JSVal.func i ∉ subsOf (unsubscribeAll (subscribe s t (JSVal.func i))
        (some t)).1 t := by
      by_cases hte : t = ""
      · subst hte
        simp [unsubscribeAll, subsOf, lookupTopic]
      · have hsome : (lookupTopic (subscribe s t (JSVal.func i)) t).isSome = true := by
          rw [lookupTopic_subscribe_self]
          rfl
        rw [show (unsubscribeAll (subscribe s t (JSVal.func i)) (some t)).1
            = deleteTopic (subscribe s t (JSVal.func i)) t from by
          simp [unsubscribeAll, hte, hsome]]
        unfold subsOf
        rw [lookupTopic_deleteTopic_self _ t hwf1.1]
        simp
    exact unsubscribe_noop _ t i (wf_unsubscribeAll _ (some t) hwf1) hnot3

theorem C7_witness :
    isSubscribed (subscribe ([] : Reg) "a" (JSVal.func 0)) "a" (JSVal.func 0) true = true
    ∧ isSubscribed (unsubscribe (subscribe ([] : Reg) "a" (JSVal.func 0)) "a"
        (some (JSVal.func 0))).1 "a" (JSVal.func 0) true = false
    ∧ unsubscribe (unsubscribe (subscribe ([] : Reg) "a" (JSVal.func 0)) "a"
        (some (JSVal.func 0))).1 "a" (some (JSVal.func 0))
      = ((unsubscribe (subscribe ([] : Reg) "a" (JSVal.func 0)) "a"
          (some (JSVal.func 0))).1, false)
    ∧ unsubscribe (unsubscribeAll (subscribe ([] : Reg) "a" (JSVal.func 0))
        (some "a")).1 "a" (some (JSVal.func 0))
      = ((unsubscribeAll (subscribe ([] : Reg) "a" (JSVal.func 0)) (some "a")).1,
         false) :=
  C7_unsubscriber_lifecycle ([] : Reg) "a" 0 (by decide) (Or.inr (by decide))

/-- C8 counterexample. `PubSub.subscribe` performs no validation: calling
it with the empty topic name and a non-function value raises nothing and
*records* the subscription — the entry is created and `isSubscribed`
reports it — contradicting "a synchronous error is raised ... no
subscription is recorded". (The embedded `subscribe` is a total function
because the source method's body contains no validation or `throw`.) -/
theorem C8_counterexample :
    subscribe ([] : Reg) "" (JSVal.num 5) = [("", [JSVal.num 5])]
    ∧ isSubscribed (subscribe ([] : Reg) "" (JSVal.num 5)) "" (JSVal.num 5) true
        = true :=
  ⟨rfl, rfl⟩

/-- C8 amended. `subscribe` accepts every topic string (the empty string
included) and every callback value (non-invocable values included)
without error, and always records the subscription. -/
theorem C8_no_validation (s : Reg) (t : String) (v : JSVal) :
    isSubscribed (subscribe s t v) t v true = true := by
  rw [isSubscribed_wildcard_eq]
  simp [mem_subsOf_subscribe_self]

/-- C9 counterexample. The topic `""` is not present in the mapping, yet
`unsubscribeAll("")` returns `true` and clears the whole map — removing
the unrelated topic `"a"` — because `if (topic)` treats the empty string
as "no topic given". This contradicts both "removes exactly the entry for
t and no other topic's entry" and "returning false if t did not exist". -/
theorem C9_counterexample :
    lookupTopic [("a", [JSVal.func 0])] "" = none
    ∧ unsubscribeAll [("a", [JSVal.func 0])] (some "") = ([], true) :=
  ⟨rfl, rfl⟩

/-- C9 amended. For every *non-empty* topic string `t`,
`unsubscribeAll(t)` removes exactly `t`'s entry and returns whether it
existed; `unsubscribeAll("")` behaves like the no-argument call: it
clears every topic and returns `true`. -/
theorem C9_unsubscribeAll_by_topic (s : Reg) (t : String) (hwf : wfReg s) :
    (t ≠ "" →
      lookupTopic (unsubscribeAll s (some t)).1 t = none
      ∧ (∀ t2, t2 ≠ t →
          lookupTopic (unsubscribeAll s (some t)).1 t2 = lookupTopic s t2)
      ∧ (unsubscribeAll s (some t)).2 = (lookupTopic s t).isSome)
    ∧ unsubscribeAll s (some "") = ([], true) := by
  constructor
  · intro ht
    by_cases hsome : (lookupTopic s t).isSome = true
    · have h : unsubscribeAll s (some t) = (deleteTopic s t, true) := by
        simp [unsubscribeAll, ht, hsome]
      rw [h]
      exact ⟨lookupTopic_deleteTopic_self s t hwf.1,
        fun t2 h2 => lookupTopic_deleteTopic_ne s t t2 h2,
        by simp [hsome]⟩
    · have hnone : lookupTopic s t = none := by
        cases hl : lookupTopic s t with
        | none => rfl
        | some l => rw [hl] at hsome; simp at hsome
      have h : unsubscribeAll s (some t) = (s, false) := by
        simp [unsubscribeAll, ht, hsome]
      rw [h]
      exact ⟨hnone, fun t2 h2 => rfl, by rw [hnone]; rfl⟩
  · simp [unsubscribeAll]

theorem C9_witness :
    ("a" ≠ "" →
      lookupTopic (unsubscribeAll regTwo (some "a")).1 "a" = none
      ∧ (∀ t2, t2 ≠ "a" →
          lookupTopic (unsubscribeAll regTwo (some "a")).1 t2 = lookupTopic regTwo t2)
      ∧ (unsubscribeAll regTwo (some "a")).2 = (lookupTopic regTwo "a").isSome)
    ∧ unsubscribeAll regTwo (some "") = ([], true) :=
  C9_unsubscribeAll_by_topic regTwo "a" (by decide)

/-- C10. For a topic present in the mapping, `unsubscribe(t, x)` with a
defined non-function argument `x` — here a number — takes the
`typeof cb === "function"` else-branch: it deletes the *entire* topic
entry (all of `t`'s subscribers), returns `true`, and leaves every other
topic untouched. -/
theorem C10_unsubscribe_nonfunction (s : Reg) (t : String) (l : List JSVal)
    (n : Nat) (hwf : wfReg s) (hl : lookupTopic s t = some l) :
    unsubscribe s t (some (JSVal.num n)) = (deleteTopic s t, true)
    ∧ lookupTopic (unsubscribe s t (some (JSVal.num n))).1 t = none
    ∧ ∀ t2, t2 ≠ t →
        lookupTopic (unsubscribe s t (some (JSVal.num n))).1 t2 = lookupTopic s t2 := by
  have h := unsubscribe_nonfn_present s t l (some (JSVal.num n)) hl (fun i => by simp)
  refine ⟨h, ?_, ?_⟩
  · rw [h]
    exact lookupTopic_deleteTopic_self s t hwf.1
  · intro t2 h2
    rw [h]
    exact lookupTopic_deleteTopic_ne s t t2 h2

theorem C10_witness :
    unsubscribe regTwo "foo" (some (JSVal.num 7)) = (deleteTopic regTwo "foo", true)
    ∧ lookupTopic (unsubscribe regTwo "foo" (some (JSVal.num 7))).1 "foo" = none
    ∧ ∀ t2, t2 ≠ "foo" →
        lookupTopic (unsubscribe regTwo "foo" (some (JSVal.num 7))).1 t2
          = lookupTopic regTwo t2 :=
  C10_unsubscribe_nonfunction regTwo "foo" [JSVal.func 0] 7 (by decide) (by decide)
